import Mathlib

/-!
Verification of the carrier-concentration solver of
`Electron-Holes-Conc-In-Semiconductor` (`src/src/App.tsx`,
`calculateConcentrations`).  The computation is embedded over the real
numbers: JavaScript `Math.sqrt`, `Math.exp`, `Math.pow`, `Math.log` become
`Real.sqrt`, `Real.exp`, real `rpow`, `Real.log`, and the JavaScript bitwise
right shift `>>` that the source applies to floating-point values is embedded
through its ECMAScript semantics (`ToInt32`, `ToUint32`, arithmetic right
shift).
-/

namespace SemiconductorApp

noncomputable section

open Real

/-- Conduction-type label produced by the solver
(`'Intrinsic' | 'n-type' | 'p-type'` in `App.tsx`). -/
inductive ConductionType
  | Intrinsic
  | NType
  | PType
deriving DecidableEq

/-- `MaterialProperties` record of `App.tsx` (lines 4–10); the `name` field is
carried along but never used by the computation. -/
structure MaterialProperties where
  name : String
  bandgap : ℝ
  Nc300 : ℝ
  Nv300 : ℝ
  temperatureCoeff : ℝ

/-- The result record assembled by `calculateConcentrations`
(`setResults({ ni, n, p, fermiLevel, conductionType })`). -/
structure CarrierResult where
  ni : ℝ
  n : ℝ
  p : ℝ
  fermiLevel : ℝ
  conductionType : ConductionType

/-- ECMAScript truncation toward zero used by `ToInt32`/`ToUint32`:
`trunc x = sign x * floor |x|`. -/
def jsTrunc (x : ℝ) : ℤ := if 0 ≤ x then ⌊x⌋ else ⌈x⌉

/-- ECMAScript `ToUint32`: truncate, then reduce modulo `2^32`. -/
def toUint32 (x : ℝ) : ℤ := jsTrunc x % 4294967296

/-- ECMAScript `ToInt32`: truncate, reduce modulo `2^32`, and reinterpret as a
signed 32-bit value. -/
def toInt32 (x : ℝ) : ℤ :=
  if jsTrunc x % 4294967296 < 2147483648 then jsTrunc x % 4294967296
  else jsTrunc x % 4294967296 - 4294967296

/-- The JavaScript expression `a >> b` on numbers: sign-extending right shift
of `ToInt32 a` by `ToUint32 b mod 32`.  For a nonnegative divisor the
Euclidean division `/` on `ℤ` is exactly the floor division performed by the
arithmetic shift. -/
def jsShr (a b : ℝ) : ℤ := toInt32 a / 2 ^ ((toUint32 b).toNat % 32)

/-- Steps 1–3 of `calculateConcentrations` (`App.tsx` lines 63–71):
temperature-adjusted bandgap, temperature-scaled densities of states, and the
intrinsic carrier concentration
`ni = sqrt(Nc * Nv) * exp(-Eg / (2 * kB * T))`. -/
def niOf (material : MaterialProperties) (temperature kB : ℝ) : ℝ :=
  let Eg := material.bandgap + material.temperatureCoeff * (temperature - 300)
  let tempRatio := temperature / 300
  let Nc := material.Nc300 * tempRatio ^ (1.5 : ℝ)
  let Nv := material.Nv300 * tempRatio ^ (1.5 : ℝ)
  Real.sqrt (Nc * Nv) * Real.exp (-Eg / (2 * kB * temperature))

/-- The majority-carrier concentration computed inside the extrinsic branches
(`App.tsx` lines 87–95 for `netDoping`, lines 101–109 for `netAcceptor`):
the asymptotic approximation when the shift expression is truthy, otherwise
the exact quadratic solution. -/
def majorityCarrier (doping ni : ℝ) : ℝ :=
  if jsShr doping ni ≠ 0 then doping
  else (doping + Real.sqrt (doping * doping + 4 * ni * ni)) / 2

/-- The regime dispatch of `calculateConcentrations` (`App.tsx` lines 74–120)
as a function of the already computed `ni` and of
`netDoping = donorConc - acceptorConc`. -/
def solveNet (ni netDoping kB temperature : ℝ) : CarrierResult :=
  if |netDoping| < ni then
    ⟨ni, ni, ni, 0, ConductionType.Intrinsic⟩
  else if 0 < netDoping then
    ⟨ni, majorityCarrier netDoping ni, ni * ni / majorityCarrier netDoping ni,
      kB * temperature * Real.log (majorityCarrier netDoping ni / ni),
      ConductionType.NType⟩
  else
    ⟨ni, ni * ni / majorityCarrier |netDoping| ni, majorityCarrier |netDoping| ni,
      -(kB * temperature * Real.log (majorityCarrier |netDoping| ni / ni)),
      ConductionType.PType⟩

/-- `calculateConcentrations` of `App.tsx` (lines 59–121): intrinsic
concentration from material, temperature and Boltzmann constant, then the
regime-dependent solution on the net doping.  The source performs no input
validation of any kind. -/
def calculateConcentrations (material : MaterialProperties)
    (temperature donorConc acceptorConc kB : ℝ) : CarrierResult :=
  solveNet (niOf material temperature kB) (donorConc - acceptorConc) kB temperature

/-- Intrinsic concentration exactly as the spec words it (§4.1 Steps 1–3):
`Eg(T) = bandgapEv300 + bandgapTemperatureCoefficient * (T - 300)` with no
clamping, `Nc(T) = Nc300 * (T/300)^1.5`, `Nv(T) = Nv300 * (T/300)^1.5`,
`ni(T) = sqrt(Nc(T) * Nv(T)) * exp(-Eg(T) / (2 * kB * T))`.  Stated
independently of the code path for the refinement claim C4. -/
def niFromSpec (material : MaterialProperties) (temperature kB : ℝ) : ℝ :=
  Real.sqrt ((material.Nc300 * (temperature / 300) ^ (1.5 : ℝ)) *
      (material.Nv300 * (temperature / 300) ^ (1.5 : ℝ))) *
    Real.exp (-(material.bandgap + material.temperatureCoeff * (temperature - 300)) /
      (2 * kB * temperature))

/-- Swap of the two extrinsic conduction-type labels, fixing `Intrinsic`. -/
def mirrorType : ConductionType → ConductionType
  | ConductionType.Intrinsic => ConductionType.Intrinsic
  | ConductionType.NType => ConductionType.PType
  | ConductionType.PType => ConductionType.NType

/-- A degenerate but well-formed material used for concrete evaluations:
zero bandgap, zero temperature coefficient and equal densities of states `a`,
so that at `T = 300` the intrinsic concentration is exactly `a`. -/
def flatMaterial (a : ℝ) : MaterialProperties := ⟨"flat", 0, a, a, 0⟩

end

/-! ### Basic extraction lemmas -/

open Real

theorem niOf_flatMaterial (a kB : ℝ) (ha : 0 ≤ a) :
    niOf (flatMaterial a) 300 kB = a := by
  unfold niOf flatMaterial
  norm_num [Real.one_rpow, Real.sqrt_mul_self ha]

theorem solveNet_ni (k d kB T : ℝ) : (solveNet k d kB T).ni = k := by
  unfold solveNet
  split_ifs <;> rfl

theorem solveNet_intrinsic {k d : ℝ} (kB T : ℝ) (h : |d| < k) :
    solveNet k d kB T = ⟨k, k, k, 0, ConductionType.Intrinsic⟩ := by
  unfold solveNet
  rw [if_pos h]

theorem solveNet_ntype {k d : ℝ} (kB T : ℝ) (h1 : ¬ |d| < k) (h2 : 0 < d) :
    solveNet k d kB T =
      ⟨k, majorityCarrier d k, k * k / majorityCarrier d k,
        kB * T * Real.log (majorityCarrier d k / k), ConductionType.NType⟩ := by
  unfold solveNet
  rw [if_neg h1, if_pos h2]

theorem solveNet_ptype {k d : ℝ} (kB T : ℝ) (h1 : ¬ |d| < k) (h2 : ¬ 0 < d) :
    solveNet k d kB T =
      ⟨k, k * k / majorityCarrier |d| k, majorityCarrier |d| k,
        -(kB * T * Real.log (majorityCarrier |d| k / k)), ConductionType.PType⟩ := by
  unfold solveNet
  rw [if_neg h1, if_neg h2]

theorem majorityCarrier_approx {d k : ℝ} (h : jsShr d k ≠ 0) :
    majorityCarrier d k = d := by
  unfold majorityCarrier
  rw [if_pos h]

theorem majorityCarrier_exact {d k : ℝ} (h : jsShr d k = 0) :
    majorityCarrier d k = (d + Real.sqrt (d * d + 4 * k * k)) / 2 := by
  unfold majorityCarrier
  rw [if_neg (by simpa using h)]

/-! ### Evaluating the shift on concrete inputs -/

theorem jsTrunc_of_floor (n : ℤ) {x : ℝ} (h0 : 0 ≤ x) (h1 : (n : ℝ) ≤ x)
    (h2 : x < n + 1) : jsTrunc x = n := by
  unfold jsTrunc
  rw [if_pos h0, Int.floor_eq_iff.mpr ⟨h1, h2⟩]

theorem jsShr_of_jsTrunc {a b : ℝ} {ia ib : ℤ} (ha : jsTrunc a = ia)
    (hb : jsTrunc b = ib) :
    jsShr a b =
      (if ia % 4294967296 < 2147483648 then ia % 4294967296
        else ia % 4294967296 - 4294967296) /
        2 ^ ((ib % 4294967296).toNat % 32) := by
  unfold jsShr toInt32 toUint32
  rw [ha, hb]

theorem jsShr_5_2 : jsShr 5 2 = 1 := by
  rw [jsShr_of_jsTrunc (jsTrunc_of_floor 5 (by norm_num) (by norm_num) (by norm_num))
    (jsTrunc_of_floor 2 (by norm_num) (by norm_num) (by norm_num))]
  decide

theorem jsShr_5_4 : jsShr 5 4 = 0 := by
  rw [jsShr_of_jsTrunc (jsTrunc_of_floor 5 (by norm_num) (by norm_num) (by norm_num))
    (jsTrunc_of_floor 4 (by norm_num) (by norm_num) (by norm_num))]
  decide

theorem jsShr_15_4 : jsShr 15 4 = 0 := by
  rw [jsShr_of_jsTrunc (jsTrunc_of_floor 15 (by norm_num) (by norm_num) (by norm_num))
    (jsTrunc_of_floor 4 (by norm_num) (by norm_num) (by norm_num))]
  decide

theorem jsShr_32_32 : jsShr 32 32 = 32 := by
  rw [jsShr_of_jsTrunc (jsTrunc_of_floor 32 (by norm_num) (by norm_num) (by norm_num))
    (jsTrunc_of_floor 32 (by norm_num) (by norm_num) (by norm_num))]
  decide

theorem jsShr_159_10_4 : jsShr (159 / 10) 4 = 0 := by
  rw [jsShr_of_jsTrunc (jsTrunc_of_floor 15 (by norm_num) (by norm_num) (by norm_num))
    (jsTrunc_of_floor 4 (by norm_num) (by norm_num) (by norm_num))]
  decide

theorem jsShr_33_2_4 : jsShr (33 / 2) 4 = 1 := by
  rw [jsShr_of_jsTrunc (jsTrunc_of_floor 16 (by norm_num) (by norm_num) (by norm_num))
    (jsTrunc_of_floor 4 (by norm_num) (by norm_num) (by norm_num))]
  decide

theorem jsShr_1_0 : jsShr 1 0 = 1 := by
  rw [jsShr_of_jsTrunc (jsTrunc_of_floor 1 (by norm_num) (by norm_num) (by norm_num))
    (jsTrunc_of_floor 0 (by norm_num) (by norm_num) (by norm_num))]
  decide

/-! ### Inequalities about the majority-carrier value -/

theorem sqrt_quad_ge_self (d k : ℝ) :
    d ≤ Real.sqrt (d * d + 4 * k * k) := by
  nlinarith [Real.sq_sqrt (show (0:ℝ) ≤ d * d + 4 * k * k by nlinarith [mul_self_nonneg d, mul_self_nonneg k]),
    Real.sqrt_nonneg (d * d + 4 * k * k), sq_nonneg k]

theorem sqrt_quad_ge_two_k (d k : ℝ) :
    2 * k ≤ Real.sqrt (d * d + 4 * k * k) := by
  nlinarith [Real.sq_sqrt (show (0:ℝ) ≤ d * d + 4 * k * k by nlinarith [mul_self_nonneg d, mul_self_nonneg k]),
    Real.sqrt_nonneg (d * d + 4 * k * k), sq_nonneg d]

/-- The majority-carrier value is at least the regime threshold `k`, in both
the approximate and the exact sub-case. -/
theorem majorityCarrier_ge {d k : ℝ} (hk : 0 ≤ k) (hd : k ≤ d) :
    k ≤ majorityCarrier d k := by
  unfold majorityCarrier
  split_ifs
  · exact hd
  · have h1 := sqrt_quad_ge_two_k d k
    linarith

theorem majorityCarrier_pos {d k : ℝ} (hd : 0 < d) : 0 < majorityCarrier d k := by
  unfold majorityCarrier
  split_ifs
  · exact hd
  · have h1 := Real.sqrt_nonneg (d * d + 4 * k * k)
    linarith

/-- Exact sub-case values dominate the doping itself. -/
theorem majorityCarrier_exact_ge_self {d k : ℝ} (h : jsShr d k = 0) :
    d ≤ majorityCarrier d k := by
  rw [majorityCarrier_exact h]
  have h1 := sqrt_quad_ge_self d k
  linarith

/-- Monotonicity of the exact quadratic solution in the doping. -/
theorem majorityCarrier_exact_mono {d₁ d₂ k : ℝ} (h0 : 0 ≤ d₁) (h12 : d₁ ≤ d₂)
    (e₁ : jsShr d₁ k = 0) (e₂ : jsShr d₂ k = 0) :
    majorityCarrier d₁ k ≤ majorityCarrier d₂ k := by
  rw [majorityCarrier_exact e₁, majorityCarrier_exact e₂]
  have hs : Real.sqrt (d₁ * d₁ + 4 * k * k) ≤ Real.sqrt (d₂ * d₂ + 4 * k * k) :=
    Real.sqrt_le_sqrt (by nlinarith)
  linarith

/-! ### Structural facts about `solveNet` -/

/-- Mass action `n * p = ni ^ 2` holds in every branch of the solver. -/
theorem solveNet_mass_action (k d kB T : ℝ) (hk : 0 ≤ k) :
    (solveNet k d kB T).n * (solveNet k d kB T).p = k ^ 2 := by
  by_cases h1 : |d| < k
  · rw [solveNet_intrinsic kB T h1]
    ring
  · by_cases h2 : 0 < d
    · rw [solveNet_ntype kB T h1 h2]
      have hn : majorityCarrier d k ≠ 0 := (majorityCarrier_pos h2).ne'
      field_simp
      ring
    · rw [solveNet_ptype kB T h1 h2]
      rcases eq_or_lt_of_le hk with hk0 | hk0
      · simp [← hk0]
      · have hka : k ≤ |d| := not_lt.mp h1
        have hp : (0:ℝ) < majorityCarrier |d| k :=
          lt_of_lt_of_le hk0 (majorityCarrier_ge hk0.le hka)
        field_simp
        ring

/-- The electron concentration is positive in every branch once `ni > 0`. -/
theorem solveNet_n_pos (k d kB T : ℝ) (hk : 0 < k) : 0 < (solveNet k d kB T).n := by
  by_cases h1 : |d| < k
  · rw [solveNet_intrinsic kB T h1]
    exact hk
  · by_cases h2 : 0 < d
    · rw [solveNet_ntype kB T h1 h2]
      exact majorityCarrier_pos h2
    · rw [solveNet_ptype kB T h1 h2]
      have hka : k ≤ |d| := not_lt.mp h1
      have hp : (0:ℝ) < majorityCarrier |d| k :=
        lt_of_lt_of_le hk (majorityCarrier_ge hk.le hka)
      positivity

/-- In every branch the Fermi offset equals `kB * T * log (n / ni)`:
in the p-type branch this is the identity
`-(log (p / ni)) = log (ni / p) = log (n / ni)` forced by mass action. -/
theorem solveNet_fermi_eq (k d kB T : ℝ) (hk : 0 < k) :
    (solveNet k d kB T).fermiLevel =
      kB * T * Real.log ((solveNet k d kB T).n / k) := by
  by_cases h1 : |d| < k
  · rw [solveNet_intrinsic kB T h1]
    simp [div_self hk.ne']
  · by_cases h2 : 0 < d
    · rw [solveNet_ntype kB T h1 h2]
    · rw [solveNet_ptype kB T h1 h2]
      have hka : k ≤ |d| := not_lt.mp h1
      have hp : (0:ℝ) < majorityCarrier |d| k :=
        lt_of_lt_of_le hk (majorityCarrier_ge hk.le hka)
      have harg : k * k / majorityCarrier |d| k / k = k / majorityCarrier |d| k := by
        field_simp
        ring
      rw [harg, Real.log_div hk.ne' hp.ne', Real.log_div hp.ne' hk.ne']
      ring

/-! ### Positivity of the intrinsic concentration -/

theorem niOf_nonneg (m : MaterialProperties) (T kB : ℝ) : 0 ≤ niOf m T kB := by
  unfold niOf
  exact mul_nonneg (Real.sqrt_nonneg _) (Real.exp_nonneg _)

theorem niOf_pos (m : MaterialProperties) {T : ℝ} (kB : ℝ) (hT : 0 < T)
    (hNc : 0 < m.Nc300) (hNv : 0 < m.Nv300) : 0 < niOf m T kB := by
  unfold niOf
  have hr : (0:ℝ) < T / 300 := by positivity
  have hNcT : 0 < m.Nc300 * (T / 300) ^ (1.5 : ℝ) :=
    mul_pos hNc (Real.rpow_pos_of_pos hr _)
  have hNvT : 0 < m.Nv300 * (T / 300) ^ (1.5 : ℝ) :=
    mul_pos hNv (Real.rpow_pos_of_pos hr _)
  exact mul_pos (Real.sqrt_pos.mpr (mul_pos hNcT hNvT)) (Real.exp_pos _)

theorem calc_ni_eq (m : MaterialProperties) (T Nd Na kB : ℝ) :
    (calculateConcentrations m T Nd Na kB).ni = niOf m T kB := by
  unfold calculateConcentrations
  exact solveNet_ni _ _ _ _

/-! ### Intrinsic concentration of the flat material at degenerate temperatures -/

theorem niOf_flatMaterial_zeroT (a kB : ℝ) : niOf (flatMaterial a) 0 kB = 0 := by
  unfold niOf flatMaterial
  norm_num [Real.zero_rpow (by norm_num : (1.5:ℝ) ≠ 0)]

theorem niOf_flatMaterial_negT (a kB : ℝ) : niOf (flatMaterial a) (-10) kB = 0 := by
  unfold niOf flatMaterial
  have hcos : Real.cos ((3 / 2 : ℝ) * Real.pi) = 0 := by
    have h15 : (3 / 2 : ℝ) * Real.pi = Real.pi / 2 + Real.pi := by ring
    rw [h15, Real.cos_add]
    simp
  have key : ((-(1 / 30) : ℝ)) ^ ((3 / 2 : ℝ)) = 0 := by
    rw [Real.rpow_def_of_neg (by norm_num : ((-(1 / 30) : ℝ)) < 0), hcos, mul_zero]
  norm_num [key]

/-! ### Claim C1 — mass-action law -/

/-- C1: for every input (in particular every valid one) the solver's outputs
satisfy the mass-action law exactly over the reals,
`electronConcentration * holeConcentration = intrinsicConcentration ^ 2`, in
every regime; exact equality implies the claimed relative tolerance `1e-9`. -/
theorem mass_action_law (m : MaterialProperties) (T Nd Na kB : ℝ) :
    (calculateConcentrations m T Nd Na kB).n * (calculateConcentrations m T Nd Na kB).p =
      (calculateConcentrations m T Nd Na kB).ni ^ 2 := by
  unfold calculateConcentrations
  rw [solveNet_ni]
  exact solveNet_mass_action _ _ _ _ (niOf_nonneg m T kB)

/-! ### Claim C4 — intrinsic-concentration formula -/

/-- C4: for every input the intrinsic concentration returned by the solver is
exactly `ni(T) = sqrt(Nc(T) * Nv(T)) * exp(-Eg(T) / (2 kB T))` with
`Eg(T) = bandgapEv300 + bandgapTemperatureCoefficient * (T - 300)` unclamped
and `Nc(T) = Nc300 * (T/300)^1.5`, `Nv(T) = Nv300 * (T/300)^1.5`, as the spec
states it (`niFromSpec`). -/
theorem ni_formula (m : MaterialProperties) (T Nd Na kB : ℝ) :
    (calculateConcentrations m T Nd Na kB).ni = niFromSpec m T kB := by
  rw [calc_ni_eq]
  unfold niOf niFromSpec
  rfl

/-! ### Claim C6 — intrinsic regime -/

/-- C6: whenever `|netDoping| < ni(T)` the solver returns
`n = p = ni(T)`, `fermiLevelOffsetEv = 0` and type `Intrinsic`; and for
positive material parameters and temperature, equal donor and acceptor
concentrations always land in the intrinsic regime with zero Fermi offset. -/
theorem intrinsic_regime (m : MaterialProperties) (T Nd Na kB : ℝ) :
    (|Nd - Na| < niOf m T kB →
      calculateConcentrations m T Nd Na kB =
        ⟨niOf m T kB, niOf m T kB, niOf m T kB, 0, ConductionType.Intrinsic⟩) ∧
    (0 < T → 0 < m.Nc300 → 0 < m.Nv300 → Nd = Na →
      (calculateConcentrations m T Nd Na kB).conductionType = ConductionType.Intrinsic ∧
        (calculateConcentrations m T Nd Na kB).fermiLevel = 0) := by
  constructor
  · intro h
    unfold calculateConcentrations
    exact solveNet_intrinsic kB T h
  · intro hT hNc hNv hda
    have h : |Nd - Na| < niOf m T kB := by
      rw [hda]
      simpa using niOf_pos m kB hT hNc hNv
    unfold calculateConcentrations
    rw [solveNet_intrinsic kB T h]
    exact ⟨rfl, rfl⟩

/-- C6 witness: a concrete intrinsic input, `Nd = Na = 1` on the flat material
with `ni = 4` at `T = 300`, `kB = 1`. -/
theorem intrinsic_regime_witness :
    calculateConcentrations (flatMaterial 4) 300 1 1 1 =
        ⟨4, 4, 4, 0, ConductionType.Intrinsic⟩ ∧
      ((calculateConcentrations (flatMaterial 4) 300 1 1 1).conductionType =
          ConductionType.Intrinsic ∧
        (calculateConcentrations (flatMaterial 4) 300 1 1 1).fermiLevel = 0) := by
  have h4 : niOf (flatMaterial 4) 300 1 = 4 := niOf_flatMaterial 4 1 (by norm_num)
  constructor
  · have h := (intrinsic_regime (flatMaterial 4) 300 1 1 1).1 (by rw [h4]; norm_num)
    rw [h4] at h
    exact h
  · exact (intrinsic_regime (flatMaterial 4) 300 1 1 1).2 (by norm_num)
      (by norm_num [flatMaterial]) (by norm_num [flatMaterial]) rfl

/-! ### Claim C7 — doping-independence of the intrinsic concentration -/

/-- C7: for a fixed material, temperature and Boltzmann constant, the returned
`intrinsicConcentration` is the same for any two doping configurations. -/
theorem ni_doping_independent (m : MaterialProperties) (T Nd Na Nd' Na' kB : ℝ) :
    (calculateConcentrations m T Nd Na kB).ni =
      (calculateConcentrations m T Nd' Na' kB).ni := by
  rw [calc_ni_eq, calc_ni_eq]

/-! ### Claim C10 — dependence through the net doping only -/

/-- C10: the whole output depends on the doping inputs only through
`netDoping = donorConcentration - acceptorConcentration`; in particular adding
the same amount to both concentrations leaves the entire result unchanged
(proved for every real shift, hence in particular for every shift `c ≥ 0`). -/
theorem depends_only_on_net_doping (m : MaterialProperties)
    (T Nd Na Nd' Na' kB c : ℝ) :
    (Nd - Na = Nd' - Na' →
      calculateConcentrations m T Nd Na kB = calculateConcentrations m T Nd' Na' kB) ∧
    calculateConcentrations m T (Nd + c) (Na + c) kB =
      calculateConcentrations m T Nd Na kB := by
  constructor
  · intro h
    unfold calculateConcentrations
    rw [h]
  · unfold calculateConcentrations
    have h : Nd + c - (Na + c) = Nd - Na := by ring
    rw [h]

/-- C10 witness: `5 - 2 = 4 - 1` gives identical results, and shifting both
dopings by `7` changes nothing. -/
theorem depends_only_on_net_doping_witness :
    (calculateConcentrations (flatMaterial 4) 300 5 2 1 =
        calculateConcentrations (flatMaterial 4) 300 4 1 1) ∧
      calculateConcentrations (flatMaterial 4) 300 (5 + 7) (2 + 7) 1 =
        calculateConcentrations (flatMaterial 4) 300 5 2 1 :=
  ⟨(depends_only_on_net_doping (flatMaterial 4) 300 5 2 4 1 1 7).1 (by norm_num),
    (depends_only_on_net_doping (flatMaterial 4) 300 5 2 4 1 1 7).2⟩

/-! ### Claim C2 — there is no input validation at all -/

theorem calc_at_zero_T :
    calculateConcentrations (flatMaterial 4) 0 1 0 1 =
      ⟨0, 1, 0, 0, ConductionType.NType⟩ := by
  unfold calculateConcentrations
  rw [niOf_flatMaterial_zeroT, show ((1:ℝ) - 0) = 1 by norm_num,
    solveNet_ntype 1 0 (by norm_num) (by norm_num),
    majorityCarrier_approx (by rw [jsShr_1_0]; norm_num)]
  norm_num

theorem calc_at_negative_T :
    calculateConcentrations (flatMaterial 4) (-10) 1 0 1 =
      ⟨0, 1, 0, 0, ConductionType.NType⟩ := by
  unfold calculateConcentrations
  rw [niOf_flatMaterial_negT, show ((1:ℝ) - 0) = 1 by norm_num,
    solveNet_ntype 1 (-10) (by norm_num) (by norm_num),
    majorityCarrier_approx (by rw [jsShr_1_0]; norm_num)]
  norm_num [Real.log_zero]

theorem calc_at_zero_kB :
    calculateConcentrations (flatMaterial 4) 300 1 0 0 =
      ⟨4, 4, 4, 0, ConductionType.Intrinsic⟩ := by
  unfold calculateConcentrations
  rw [niOf_flatMaterial 4 0 (by norm_num), show ((1:ℝ) - 0) = 1 by norm_num]
  exact solveNet_intrinsic 0 300 (by norm_num)

theorem calc_at_negative_donor :
    calculateConcentrations (flatMaterial 4) 300 (-1) 0 1 =
      ⟨4, 4, 4, 0, ConductionType.Intrinsic⟩ := by
  unfold calculateConcentrations
  rw [niOf_flatMaterial 4 1 (by norm_num), show ((-1:ℝ) - 0) = -1 by norm_num]
  exact solveNet_intrinsic 1 300 (by norm_num)

/-- C2 counterexample: for the non-physical input `donorConcentration = -1`
(with perfectly valid `T = 300 > 0` and `kB = 1 > 0`) the solver does not
raise any error — `calculateConcentrations` is a total function with no error
path in the source — and returns the complete intrinsic-regime result. -/
theorem no_domain_error_on_negative_donor :
    calculateConcentrations (flatMaterial 4) 300 (-1) 0 1 =
      ⟨4, 4, 4, 0, ConductionType.Intrinsic⟩ :=
  calc_at_negative_donor

/-- C2 amended: the solver performs no input validation and raises no
`DomainError`; for each input the claim lists as failing — `T = 0`,
`T = -10`, `kB = 0` and `donorConcentration = -1` — it returns a complete
(possibly physically meaningless) result.  The `donorConcentration = -1` row
is exact also in floating point; the three degenerate-temperature/constant
rows evaluate the real-number embedding, whose convention `x / 0 = 0` stands
in for the IEEE `NaN`/`Infinity` propagation of the source, which likewise
returns a result object and raises nothing. -/
theorem no_input_validation :
    calculateConcentrations (flatMaterial 4) 0 1 0 1 =
        ⟨0, 1, 0, 0, ConductionType.NType⟩ ∧
      calculateConcentrations (flatMaterial 4) (-10) 1 0 1 =
        ⟨0, 1, 0, 0, ConductionType.NType⟩ ∧
      calculateConcentrations (flatMaterial 4) 300 1 0 0 =
        ⟨4, 4, 4, 0, ConductionType.Intrinsic⟩ ∧
      calculateConcentrations (flatMaterial 4) 300 (-1) 0 1 =
        ⟨4, 4, 4, 0, ConductionType.Intrinsic⟩ :=
  ⟨calc_at_zero_T, calc_at_negative_T, calc_at_zero_kB, calc_at_negative_donor⟩

/-! ### Claim C3 — the shift-based threshold is not an order-of-magnitude test -/

/-- C3: the regime test `netDoping >> ni` applies the asymptotic
approximation `n = netDoping` even when the net doping exceeds `ni` by a
factor of only `2.5` (here `netDoping = 5`, `ni = 2`, and `5 >> 2 = 1` is
truthy), although the exact quadratic solution differs
(`(5 + sqrt 41) / 2 > 5`); the "dominates by orders of magnitude" reading of
the threshold does not hold on the code. -/
theorem shift_threshold_not_order_of_magnitude :
    calculateConcentrations (flatMaterial 2) 300 5 0 1 =
        ⟨2, 5, 4 / 5, 300 * Real.log (5 / 2), ConductionType.NType⟩ ∧
      (5:ℝ) < (5 + Real.sqrt (5 * 5 + 4 * 2 * 2)) / 2 := by
  constructor
  · unfold calculateConcentrations
    rw [niOf_flatMaterial 2 1 (by norm_num), show ((5:ℝ) - 0) = 5 by norm_num,
      solveNet_ntype 1 300 (by norm_num) (by norm_num),
      majorityCarrier_approx (by rw [jsShr_5_2]; norm_num)]
    norm_num
  · have h : (5:ℝ) < Real.sqrt ((5:ℝ) * 5 + 4 * 2 * 2) :=
      (Real.lt_sqrt (by norm_num)).mpr (by norm_num)
    set s := Real.sqrt ((5:ℝ) * 5 + 4 * 2 * 2) with hs
    linarith

/-! ### Claim C5 — the n-type regime -/

/-- C5 counterexample: a valid input squarely in the n-type regime
(`netDoping = ni = 32`, `T = 300 > 0`, `kB = 1 > 0`) whose Fermi offset is
`0`, not positive: the truthy shift `32 >> 32 = 32 >> 0 = 32` routes the
boundary point `netDoping = ni` to the asymptotic sub-case, where
`n = netDoping = ni` and `kB·T·ln(n/ni) = 0`. -/
theorem ntype_fermi_not_positive :
    (calculateConcentrations (flatMaterial 32) 300 32 0 1).conductionType =
        ConductionType.NType ∧
      ¬ 0 < (calculateConcentrations (flatMaterial 32) 300 32 0 1).fermiLevel := by
  have h : calculateConcentrations (flatMaterial 32) 300 32 0 1 =
      ⟨32, 32, 32 * 32 / 32, 1 * 300 * Real.log (32 / 32), ConductionType.NType⟩ := by
    unfold calculateConcentrations
    rw [niOf_flatMaterial 32 1 (by norm_num), show ((32:ℝ) - 0) = 32 by norm_num,
      solveNet_ntype 1 300 (by norm_num) (by norm_num),
      majorityCarrier_approx (by rw [jsShr_32_32]; norm_num)]
  rw [h]
  norm_num

/-- C5 amended: for every valid input in the n-type regime
(`netDoping > 0`, `|netDoping| ≥ ni`, `T > 0`, `kB > 0`) the conduction type
is `NType`, `fermiLevelOffsetEv = kB·T·ln(n/ni)` and it is nonnegative (the
strict positivity the claim states fails exactly when the asymptotic sub-case
receives `netDoping = ni`); and in the general sub-case
`n = (netDoping + sqrt(netDoping² + 4·ni²))/2` with `p = ni²/n`. -/
theorem ntype_regime (m : MaterialProperties) (T Nd Na kB : ℝ)
    (hT : 0 < T) (hkB : 0 < kB) (hd : 0 < Nd - Na)
    (hext : ¬ |Nd - Na| < niOf m T kB) :
    (calculateConcentrations m T Nd Na kB).conductionType = ConductionType.NType ∧
    (calculateConcentrations m T Nd Na kB).fermiLevel =
      kB * T * Real.log ((calculateConcentrations m T Nd Na kB).n / niOf m T kB) ∧
    0 ≤ (calculateConcentrations m T Nd Na kB).fermiLevel ∧
    (jsShr (Nd - Na) (niOf m T kB) = 0 →
      (calculateConcentrations m T Nd Na kB).n =
        ((Nd - Na) + Real.sqrt ((Nd - Na) * (Nd - Na) +
          4 * niOf m T kB * niOf m T kB)) / 2 ∧
      (calculateConcentrations m T Nd Na kB).p =
        niOf m T kB * niOf m T kB / (calculateConcentrations m T Nd Na kB).n) := by
  have hknn : 0 ≤ niOf m T kB := niOf_nonneg m T kB
  unfold calculateConcentrations
  rw [solveNet_ntype kB T hext hd]
  refine ⟨rfl, rfl, ?_, ?_⟩
  · rcases eq_or_lt_of_le hknn with hk0 | hk0
    · rw [← hk0]
      simp
    · have hkd : niOf m T kB ≤ Nd - Na := by
        have h1 := not_lt.mp hext
        rwa [abs_of_pos hd] at h1
      have hMC : niOf m T kB ≤ majorityCarrier (Nd - Na) (niOf m T kB) :=
        majorityCarrier_ge hknn hkd
      have hlog : 0 ≤ Real.log (majorityCarrier (Nd - Na) (niOf m T kB) / niOf m T kB) :=
        Real.log_nonneg ((one_le_div hk0).mpr hMC)
      exact mul_nonneg (mul_nonneg hkB.le hT.le) hlog
  · intro h0
    rw [majorityCarrier_exact h0]
    exact ⟨rfl, rfl⟩

/-- C5 witness: the flat material with `ni = 4`, `netDoping = 5`, `T = 300`,
`kB = 1` — an n-type input handled by the general (exact quadratic)
sub-case. -/
theorem ntype_regime_witness :
    (calculateConcentrations (flatMaterial 4) 300 5 0 1).conductionType =
        ConductionType.NType ∧
      (calculateConcentrations (flatMaterial 4) 300 5 0 1).fermiLevel =
        1 * 300 * Real.log ((calculateConcentrations (flatMaterial 4) 300 5 0 1).n /
          niOf (flatMaterial 4) 300 1) ∧
      0 ≤ (calculateConcentrations (flatMaterial 4) 300 5 0 1).fermiLevel ∧
      (jsShr ((5:ℝ) - 0) (niOf (flatMaterial 4) 300 1) = 0 →
        (calculateConcentrations (flatMaterial 4) 300 5 0 1).n =
          (((5:ℝ) - 0) + Real.sqrt (((5:ℝ) - 0) * ((5:ℝ) - 0) +
            4 * niOf (flatMaterial 4) 300 1 * niOf (flatMaterial 4) 300 1)) / 2 ∧
        (calculateConcentrations (flatMaterial 4) 300 5 0 1).p =
          niOf (flatMaterial 4) 300 1 * niOf (flatMaterial 4) 300 1 /
            (calculateConcentrations (flatMaterial 4) 300 5 0 1).n) :=
  ntype_regime (flatMaterial 4) 300 5 0 1 (by norm_num) (by norm_num) (by norm_num)
    (by rw [niOf_flatMaterial 4 1 (by norm_num)]; norm_num)

/-! ### Claim C9 — donor/acceptor swap symmetry -/

/-- Negating the net doping swaps the roles of `n` and `p`, negates the Fermi
offset and mirrors the conduction type, as long as `ni > 0`. -/
theorem solveNet_neg (k d kB T : ℝ) (hk : 0 < k) :
    solveNet k (-d) kB T =
      ⟨(solveNet k d kB T).ni, (solveNet k d kB T).p, (solveNet k d kB T).n,
        -(solveNet k d kB T).fermiLevel,
        mirrorType (solveNet k d kB T).conductionType⟩ := by
  by_cases h1 : |d| < k
  · have h1' : |(-d)| < k := by rwa [abs_neg]
    rw [solveNet_intrinsic kB T h1, solveNet_intrinsic kB T h1']
    simp [mirrorType]
  · have h1' : ¬ |(-d)| < k := by rwa [abs_neg]
    by_cases h2 : 0 < d
    · have h2' : ¬ 0 < -d := by push_neg; linarith
      rw [solveNet_ntype kB T h1 h2, solveNet_ptype kB T h1' h2']
      rw [abs_neg, abs_of_pos h2]
      simp [mirrorType]
    · have hd0 : d ≠ 0 := by
        rintro rfl
        rw [abs_zero] at h1
        exact h1 hk
      have hdneg : d < 0 := lt_of_le_of_ne (not_lt.mp h2) hd0
      have h2' : 0 < -d := by linarith
      rw [solveNet_ptype kB T h1 h2, solveNet_ntype kB T h1' h2']
      rw [abs_of_neg hdneg]
      simp [mirrorType]

/-- C9: for valid inputs with positive material parameters, swapping
`donorConcentration` and `acceptorConcentration` returns the original result
with `n` and `p` interchanged, the Fermi offset negated, and the conduction
type mirrored (`NType ↔ PType`, `Intrinsic` fixed). -/
theorem swap_doping_symmetry (m : MaterialProperties) (T Nd Na kB : ℝ)
    (hT : 0 < T) (hNc : 0 < m.Nc300) (hNv : 0 < m.Nv300) :
    calculateConcentrations m T Na Nd kB =
      ⟨(calculateConcentrations m T Nd Na kB).ni,
        (calculateConcentrations m T Nd Na kB).p,
        (calculateConcentrations m T Nd Na kB).n,
        -(calculateConcentrations m T Nd Na kB).fermiLevel,
        mirrorType (calculateConcentrations m T Nd Na kB).conductionType⟩ := by
  have hk := niOf_pos m kB hT hNc hNv
  unfold calculateConcentrations
  rw [show Na - Nd = -(Nd - Na) by ring]
  exact solveNet_neg (niOf m T kB) (Nd - Na) kB T hk

/-- C9 witness: swapping the `(5, 0)` doping pair on the flat material with
`ni = 4` mirrors the n-type result into the p-type one. -/
theorem swap_doping_symmetry_witness :
    calculateConcentrations (flatMaterial 4) 300 0 5 1 =
      ⟨(calculateConcentrations (flatMaterial 4) 300 5 0 1).ni,
        (calculateConcentrations (flatMaterial 4) 300 5 0 1).p,
        (calculateConcentrations (flatMaterial 4) 300 5 0 1).n,
        -(calculateConcentrations (flatMaterial 4) 300 5 0 1).fermiLevel,
        mirrorType (calculateConcentrations (flatMaterial 4) 300 5 0 1).conductionType⟩ :=
  swap_doping_symmetry (flatMaterial 4) 300 5 0 1 (by norm_num)
    (by norm_num [flatMaterial]) (by norm_num [flatMaterial])

/-! ### Claim C8 — monotonicity along the exact/intrinsic paths -/

/-- The electron concentration is monotone in the net doping as long as
neither input is routed to the asymptotic approximation. -/
theorem solveNet_n_mono (k d₁ d₂ kB T : ℝ) (hk : 0 < k) (h12 : d₁ ≤ d₂)
    (h1 : |d₁| < k ∨ jsShr |d₁| k = 0) (h2 : |d₂| < k ∨ jsShr |d₂| k = 0) :
    (solveNet k d₁ kB T).n ≤ (solveNet k d₂ kB T).n := by
  by_cases c1 : |d₁| < k
  · rw [solveNet_intrinsic kB T c1]
    by_cases c2 : |d₂| < k
    · rw [solveNet_intrinsic kB T c2]
    · have hk2 : k ≤ |d₂| := not_lt.mp c2
      have hd2pos : 0 < d₂ := by
        rcases le_or_lt d₂ 0 with hle | hlt
        · exfalso
          have habs2 : |d₂| = -d₂ := abs_of_nonpos hle
          have hlow : -k < d₁ := (abs_lt.mp c1).1
          rw [habs2] at hk2
          linarith
        · exact hlt
      rw [solveNet_ntype kB T c2 hd2pos]
      exact majorityCarrier_ge hk.le (by rwa [abs_of_pos hd2pos] at hk2)
  · have hk1 : k ≤ |d₁| := not_lt.mp c1
    have e1 : jsShr |d₁| k = 0 := h1.resolve_left c1
    by_cases p1 : 0 < d₁
    · have hd1 : k ≤ d₁ := by rwa [abs_of_pos p1] at hk1
      have p2 : 0 < d₂ := lt_of_lt_of_le (lt_of_lt_of_le hk hd1) h12
      have c2 : ¬ |d₂| < k := by
        rw [abs_of_pos p2]
        push_neg
        linarith
      have e2 : jsShr |d₂| k = 0 := h2.resolve_left c2
      rw [abs_of_pos p1] at e1
      rw [abs_of_pos p2] at e2
      rw [solveNet_ntype kB T c1 p1, solveNet_ntype kB T c2 p2]
      exact majorityCarrier_exact_mono (by linarith) h12 e1 e2
    · have habs1 : |d₁| = -d₁ := abs_of_nonpos (not_lt.mp p1)
      rw [solveNet_ptype kB T c1 p1]
      have hMC1 : k ≤ majorityCarrier |d₁| k := majorityCarrier_ge hk.le hk1
      have hMC1pos : 0 < majorityCarrier |d₁| k := lt_of_lt_of_le hk hMC1
      have hn1 : k * k / majorityCarrier |d₁| k ≤ k := by
        rw [div_le_iff₀ hMC1pos]
        nlinarith
      by_cases c2 : |d₂| < k
      · rw [solveNet_intrinsic kB T c2]
        exact hn1
      · have hk2 : k ≤ |d₂| := not_lt.mp c2
        by_cases p2 : 0 < d₂
        · rw [solveNet_ntype kB T c2 p2]
          exact le_trans hn1 (majorityCarrier_ge hk.le (by rwa [abs_of_pos p2] at hk2))
        · rw [solveNet_ptype kB T c2 p2]
          have habs2 : |d₂| = -d₂ := abs_of_nonpos (not_lt.mp p2)
          have e2 : jsShr |d₂| k = 0 := h2.resolve_left c2
          have hmono : majorityCarrier |d₂| k ≤ majorityCarrier |d₁| k := by
            apply majorityCarrier_exact_mono (abs_nonneg d₂) ?_ e2 e1
            rw [habs1, habs2]
            linarith
          have hMC2pos : 0 < majorityCarrier |d₂| k :=
            lt_of_lt_of_le hk (majorityCarrier_ge hk.le hk2)
          rw [div_le_div_iff₀ hMC1pos hMC2pos]
          nlinarith

/-- Fermi-offset monotonicity follows from electron-concentration
monotonicity through `fermi = kB·T·log(n/ni)`. -/
theorem solveNet_fermi_mono (k d₁ d₂ kB T : ℝ) (hk : 0 < k) (hkB : 0 ≤ kB)
    (hT : 0 ≤ T) (h12 : d₁ ≤ d₂)
    (h1 : |d₁| < k ∨ jsShr |d₁| k = 0) (h2 : |d₂| < k ∨ jsShr |d₂| k = 0) :
    (solveNet k d₁ kB T).fermiLevel ≤ (solveNet k d₂ kB T).fermiLevel := by
  rw [solveNet_fermi_eq k d₁ kB T hk, solveNet_fermi_eq k d₂ kB T hk]
  have hn := solveNet_n_mono k d₁ d₂ kB T hk h12 h1 h2
  have hp1 := solveNet_n_pos k d₁ kB T hk
  apply mul_le_mul_of_nonneg_left _ (mul_nonneg hkB hT)
  exact Real.log_le_log (div_pos hp1 hk) ((div_le_div_iff_of_pos_right hk).mpr hn)

/-- C8 amended: increasing the donor concentration (acceptor fixed) never
decreases the electron concentration, and never decreases the Fermi offset,
provided neither input is routed to the asymptotic approximation sub-case
(which the counterexample shows can decrease both). -/
theorem exact_path_monotonic (m : MaterialProperties) (T Nd₁ Nd₂ Na kB : ℝ)
    (hT : 0 < T) (hkB : 0 < kB) (hNc : 0 < m.Nc300) (hNv : 0 < m.Nv300)
    (h12 : Nd₁ ≤ Nd₂)
    (h1 : |Nd₁ - Na| < niOf m T kB ∨ jsShr |Nd₁ - Na| (niOf m T kB) = 0)
    (h2 : |Nd₂ - Na| < niOf m T kB ∨ jsShr |Nd₂ - Na| (niOf m T kB) = 0) :
    (calculateConcentrations m T Nd₁ Na kB).n ≤
        (calculateConcentrations m T Nd₂ Na kB).n ∧
      (calculateConcentrations m T Nd₁ Na kB).fermiLevel ≤
        (calculateConcentrations m T Nd₂ Na kB).fermiLevel := by
  have hk := niOf_pos m kB hT hNc hNv
  unfold calculateConcentrations
  exact ⟨solveNet_n_mono _ _ _ _ _ hk (by linarith) h1 h2,
    solveNet_fermi_mono _ _ _ _ _ hk hkB.le hT.le (by linarith) h1 h2⟩

/-- C8 witness: on the flat material with `ni = 4`, both `netDoping = 5` and
`netDoping = 15` take the exact quadratic path, and both outputs are ordered
as the amended claim states. -/
theorem exact_path_monotonic_witness :
    (calculateConcentrations (flatMaterial 4) 300 5 0 1).n ≤
        (calculateConcentrations (flatMaterial 4) 300 15 0 1).n ∧
      (calculateConcentrations (flatMaterial 4) 300 5 0 1).fermiLevel ≤
        (calculateConcentrations (flatMaterial 4) 300 15 0 1).fermiLevel :=
  exact_path_monotonic (flatMaterial 4) 300 5 15 0 1 (by norm_num) (by norm_num)
    (by norm_num [flatMaterial]) (by norm_num [flatMaterial]) (by norm_num)
    (Or.inr (by
      rw [niOf_flatMaterial 4 1 (by norm_num), show |(5:ℝ) - 0| = 5 by norm_num]
      exact jsShr_5_4))
    (Or.inr (by
      rw [niOf_flatMaterial 4 1 (by norm_num), show |(15:ℝ) - 0| = 15 by norm_num]
      exact jsShr_15_4))

/-- C8 counterexample: on the flat material with `ni = 4`, raising the donor
concentration from `15.9` (exact-quadratic path, `15 >> 4 = 0`) to `16.5`
(asymptotic path, `16 >> 4 = 1`) strictly decreases both the electron
concentration and the Fermi offset, refuting the claimed monotonicity. -/
theorem monotonicity_fails_across_threshold :
    ((159:ℝ) / 10 ≤ 33 / 2) ∧
      (calculateConcentrations (flatMaterial 4) 300 (33 / 2) 0 1).n <
        (calculateConcentrations (flatMaterial 4) 300 (159 / 10) 0 1).n ∧
      (calculateConcentrations (flatMaterial 4) 300 (33 / 2) 0 1).fermiLevel <
        (calculateConcentrations (flatMaterial 4) 300 (159 / 10) 0 1).fermiLevel := by
  have hn1 : (calculateConcentrations (flatMaterial 4) 300 (159 / 10) 0 1).n =
      ((159:ℝ) / 10 + Real.sqrt ((159:ℝ) / 10 * ((159:ℝ) / 10) + 4 * 4 * 4)) / 2 := by
    unfold calculateConcentrations
    rw [niOf_flatMaterial 4 1 (by norm_num),
      show ((159:ℝ) / 10 - 0) = (159:ℝ) / 10 by norm_num,
      solveNet_ntype 1 300
        (by rw [show |(159:ℝ) / 10| = (159:ℝ) / 10 from abs_of_pos (by norm_num)]; norm_num)
        (by norm_num),
      majorityCarrier_exact jsShr_159_10_4]
  have hf1 : (calculateConcentrations (flatMaterial 4) 300 (159 / 10) 0 1).fermiLevel =
      1 * 300 * Real.log
        ((((159:ℝ) / 10 + Real.sqrt ((159:ℝ) / 10 * ((159:ℝ) / 10) + 4 * 4 * 4)) / 2) / 4) := by
    unfold calculateConcentrations
    rw [niOf_flatMaterial 4 1 (by norm_num),
      show ((159:ℝ) / 10 - 0) = (159:ℝ) / 10 by norm_num,
      solveNet_ntype 1 300
        (by rw [show |(159:ℝ) / 10| = (159:ℝ) / 10 from abs_of_pos (by norm_num)]; norm_num)
        (by norm_num),
      majorityCarrier_exact jsShr_159_10_4]
  have hn2 : (calculateConcentrations (flatMaterial 4) 300 (33 / 2) 0 1).n = (33:ℝ) / 2 := by
    unfold calculateConcentrations
    rw [niOf_flatMaterial 4 1 (by norm_num),
      show ((33:ℝ) / 2 - 0) = (33:ℝ) / 2 by norm_num,
      solveNet_ntype 1 300
        (by rw [show |(33:ℝ) / 2| = (33:ℝ) / 2 from abs_of_pos (by norm_num)]; norm_num)
        (by norm_num),
      majorityCarrier_approx (by rw [jsShr_33_2_4]; norm_num)]
  have hf2 : (calculateConcentrations (flatMaterial 4) 300 (33 / 2) 0 1).fermiLevel =
      1 * 300 * Real.log (((33:ℝ) / 2) / 4) := by
    unfold calculateConcentrations
    rw [niOf_flatMaterial 4 1 (by norm_num),
      show ((33:ℝ) / 2 - 0) = (33:ℝ) / 2 by norm_num,
      solveNet_ntype 1 300
        (by rw [show |(33:ℝ) / 2| = (33:ℝ) / 2 from abs_of_pos (by norm_num)]; norm_num)
        (by norm_num),
      majorityCarrier_approx (by rw [jsShr_33_2_4]; norm_num)]
  rw [hn1, hf1, hn2, hf2]
  set s := Real.sqrt ((159:ℝ) / 10 * ((159:ℝ) / 10) + 4 * 4 * 4) with hs
  have hsgt : (171:ℝ) / 10 < s := by
    rw [hs]
    exact (Real.lt_sqrt (by norm_num)).mpr (by norm_num)
  have hmain : (33:ℝ) / 2 < ((159:ℝ) / 10 + s) / 2 := by linarith
  refine ⟨by norm_num, hmain, ?_⟩
  have hlog := Real.log_lt_log (show (0:ℝ) < ((33:ℝ) / 2) / 4 by norm_num)
    ((div_lt_div_iff_of_pos_right (show (0:ℝ) < 4 by norm_num)).mpr hmain)
  have := mul_lt_mul_of_pos_left hlog (show (0:ℝ) < 1 * 300 by norm_num)
  exact this
